import Mathlib

/-!
Verification of `intuitive_file_mover.py` (class `FileMover`).

The embedding below translates the pure logic of the script into Lean:

* Python string operations are modelled on the character list of a `String`,
  using code-point comparisons, which is exactly Python's semantics for
  `lower` / `startswith` / `in` / `<` on `str` (for the ASCII data handled
  here).
* `simple_search` (the ranking engine) is translated directly: an entry is
  scored 100/90/80/70 by the first matching rule, unscored entries are
  dropped, and the scored list is sorted by the key `(-score, display)`
  exactly as `matches.sort(key=lambda x: (-x[2], x[0]))` does.  Python's
  `list.sort` is a stable ascending sort by key, which `List.insertionSort`
  with the reflexive key order reproduces.
* `build_local_directory_index` / `scan_local_directory` are translated over
  an abstract directory tree (`Dirent`).  Paths are represented as the list
  of path segments relative to the scanned root; the cache maps a lowercase
  key to such a path, with Python-`dict` insertion semantics (an existing
  key is overwritten in place, a new key is appended).
* `move_files` and the relevant part of `run` are translated with the
  per-file facts that the real filesystem / user supply (does the
  destination name exist, does the user confirm the overwrite, does
  `shutil.move` raise) taken as input data, and the observable actions
  (files skipped, files for which `shutil.move` was invoked, files moved,
  whether an exception escaped the loop) returned as a trace.
-/

/-! ### Python string primitives (code-point semantics) -/

/-- Python `str.lower` on one character, for the ASCII range: `A`-`Z` maps
to `a`-`z` and everything else is unchanged. -/
def char_lower (c : Char) : Char :=
  if 65 ≤ c.toNat ∧ c.toNat ≤ 90 then Char.ofNat (c.toNat + 32) else c

/-- Python `str.lower` (ASCII range). -/
def py_lower (s : String) : String := String.mk (s.data.map char_lower)

/-- Lexicographic code-point order on character lists: Python's `<` on
`str`. -/
def chars_lt : List Char → List Char → Bool
  | [], [] => false
  | [], _ :: _ => true
  | _ :: _, [] => false
  | a :: as, b :: bs => a.toNat < b.toNat || (a.toNat == b.toNat && chars_lt as bs)

/-- Python `a < b` on strings. -/
def py_str_lt (a b : String) : Bool := chars_lt a.data b.data

/-- Python `a <= b` on strings (total order, so `a <= b` iff `not (b < a)`). -/
def py_str_le (a b : String) : Bool := !py_str_lt b a

/-- Python `s.startswith(pre)`. -/
def py_startswith (s pre : String) : Bool := pre.data.isPrefixOf s.data

/-- Containment of `sub` in `s` as a contiguous run: Python `sub in s`. -/
def chars_contains : List Char → List Char → Bool
  | _, [] => true
  | [], _ :: _ => false
  | a :: as, sub => sub.isPrefixOf (a :: as) || chars_contains as sub

/-- Python `sub in s` on strings. -/
def py_contains (s sub : String) : Bool := chars_contains s.data sub.data

/-- Python `not query.strip()`: the string consists only of whitespace
(space, tab, newline, carriage return, vertical tab, form feed). -/
def py_strip_empty (s : String) : Bool :=
  s.data.all fun c =>
    c.toNat = 32 || c.toNat = 9 || c.toNat = 10 || c.toNat = 13 ||
    c.toNat = 11 || c.toNat = 12

/-! ### Data model of `simple_search` -/

/-- A `pathlib.Path` value as `simple_search` consumes it: `display` is
`str(path)` (the full display path) and `name` is `path.name` (the leaf
name). -/
structure PyPath where
  display : String
  name : String
deriving DecidableEq

/-- One element of the local `matches` list in `simple_search`: the tuple
`(str(path), path, match_score)`. -/
structure ScoredMatch where
  display : String
  path : PyPath
  score : Nat
deriving DecidableEq

/-- The score assigned to one cache item `(key, path)` in `simple_search`:
exact name match 100, name starts with the query 90, name contains the
query 80, key contains the query 70, otherwise 0. -/
def match_score (query_lower : String) (key : String) (p : PyPath) : Nat :=
  let name_only := py_lower p.name
  if query_lower = name_only then 100
  else if py_startswith name_only query_lower then 90
  else if py_contains name_only query_lower then 80
  else if py_contains key query_lower then 70
  else 0

/-- The `matches` list of `simple_search` before sorting: one scored tuple
per cache item whose score is positive, in cache iteration order. -/
def search_matches (query_lower : String) (cache : List (String × PyPath)) :
    List ScoredMatch :=
  cache.filterMap fun kp =>
    let s := match_score query_lower kp.1 kp.2
    if 0 < s then some ⟨kp.2.display, kp.2, s⟩ else none

/-- The sort order of `matches.sort(key=lambda x: (-x[2], x[0]))`:
ascending in the key `(-score, display)`, i.e. descending score and, on
equal scores, ascending display path (code-point comparison). -/
def match_le (a b : ScoredMatch) : Prop :=
  b.score < a.score ∨ (a.score = b.score ∧ py_str_le a.display b.display = true)

instance : DecidableRel match_le := fun a b => by
  unfold match_le; infer_instance

/-- The `matches` list of `simple_search` after the sort.  Python's
`list.sort` is a stable ascending sort by key, which insertion sort with
the key order `match_le` reproduces. -/
def sorted_matches (query_lower : String) (cache : List (String × PyPath)) :
    List ScoredMatch :=
  List.insertionSort match_le (search_matches query_lower cache)

/-- `FileMover.simple_search`: empty or whitespace-only queries return no
matches; otherwise the scored matches are sorted and the first `limit` of
them are returned as `(display_path, actual_path)` pairs. -/
def simple_search (query : String) (cache : List (String × PyPath))
    (limit : Nat) : List (String × PyPath) :=
  if py_strip_empty query then []
  else
    let query_lower := py_lower query
    ((sorted_matches query_lower cache).take limit).map fun m =>
      (m.display, m.path)

/-- Tier assignment exactly as the spec words it (section 4.3): first
matching rule wins, a non-matching entry is excluded (`none`).  This is
the spec-side definition that `match_score` is compared against. -/
def rank_tier_spec (query_lower : String) (key : String) (p : PyPath) :
    Option Nat :=
  let nameLower := py_lower p.name
  if query_lower = nameLower then some 100
  else if py_startswith nameLower query_lower then some 90
  else if py_contains nameLower query_lower then some 80
  else if py_contains key query_lower then some 70
  else none

/-! ### The directory index builder -/

/-- `FileMover.skip_dirs`, verbatim: the set of names excluded from the
scan (the scan tests `entry.name.lower() in self.skip_dirs`, so the
mixed-case members can never match the lowercased name). -/
def skip_dirs : List String :=
  [".git", ".svn", ".hg", "node_modules", "__pycache__", ".cache",
   ".tmp", "temp", ".vscode", ".idea", ".DS_Store", "Library",
   "System", "Applications", ".Trash", "Trash", ".local/share/Trash",
   "AppData", "Windows", "Program Files", "Program Files (x86)"]

/-- One filesystem entry as `os.scandir` yields it: a name, whether it is
a directory, and (for the abstract tree) its children. -/
inductive Dirent where
  | mk (name : String) (isDir : Bool) (children : List Dirent)

def Dirent.name : Dirent → String
  | .mk n _ _ => n

def Dirent.isDir : Dirent → Bool
  | .mk _ d _ => d

def Dirent.children : Dirent → List Dirent
  | .mk _ _ c => c

/-- The mutable state of one index build: the `cache` dictionary (keys to
root-relative segment paths) and the `scanned_count` counter. -/
structure ScanState where
  cache : List (String × List String)
  scanned : Nat
deriving DecidableEq

/-- Python `dict` assignment `d[k] = v`: an existing key is overwritten in
place, a new key is appended at the end. -/
def dict_insert (d : List (String × List String)) (k : String)
    (v : List String) : List (String × List String) :=
  if d.any (fun p => p.1 = k) then
    d.map fun p => if p.1 = k then (k, v) else p
  else d ++ [(k, v)]

/-- `str(dir_path.relative_to(root_path)).lower()`: the root-relative
segments joined with the path separator, lowercased.  In this model every
scanned directory is under the root, so the `relative_to` computation
always succeeds. -/
def rel_key (segs : List String) : String :=
  py_lower (String.intercalate "/" segs)

mutual

/-- The `for entry in entries:` loop of `scan_local_directory`, iterating
over the children of the directory at `path` (segments relative to the
scanned root), at recursion depth `depth`.  Per iteration: stop the whole
level once `scanned_count > max_items`; skip non-directories, names
starting with `.`, and names whose lowercase form is in `skip_dirs`;
otherwise insert the name key and the relative-path key, count the entry,
and recurse into it. -/
def scan_children (maxDepth maxItems : Nat) (depth : Nat)
    (path : List String) : List Dirent → ScanState → ScanState
  | [], st => st
  | e :: rest, st =>
    if st.scanned > maxItems then st
    else if !e.isDir || py_startswith e.name "." then
      scan_children maxDepth maxItems depth path rest st
    else if skip_dirs.contains (py_lower e.name) then
      scan_children maxDepth maxItems depth path rest st
    else
      let dir_path := path ++ [e.name]
      let cache1 := dict_insert st.cache (py_lower e.name) dir_path
      let cache2 := dict_insert cache1 (rel_key dir_path) dir_path
      let st1 : ScanState := ⟨cache2, st.scanned + 1⟩
      let st2 := scan_local_directory maxDepth maxItems (depth + 1) dir_path e st1
      scan_children maxDepth maxItems depth path rest st2
termination_by es _ => sizeOf es

/-- `scan_local_directory(current_path, depth)`: return immediately when
`depth > max_depth or scanned_count > max_items`, otherwise scan the
children of the current directory. -/
def scan_local_directory (maxDepth maxItems : Nat) (depth : Nat)
    (path : List String) : Dirent → ScanState → ScanState
  | .mk _ _ children, st =>
    if depth > maxDepth || st.scanned > maxItems then st
    else scan_children maxDepth maxItems depth path children st
termination_by e _ => sizeOf e

end

/-- `FileMover.build_local_directory_index(root_path, max_depth)` with the
item cap `max_items`: the recursive scan started at the root with
`depth = 0`, an empty cache and a zero counter.  The defaults in the
source are `max_depth = 4` and `max_items = 500`. -/
def build_local_directory_index (maxDepth maxItems : Nat) (root : Dirent) :
    ScanState :=
  scan_local_directory maxDepth maxItems 0 [] root ⟨[], 0⟩

/-! ### The mover and the top-level workflow -/

/-- One file of a move batch, together with the facts the filesystem and
the user supply for it during `move_files`: whether `destination / name`
already exists, the answer the user would give to the overwrite prompt,
and whether `shutil.move` would raise for this file. -/
structure MoveFile where
  name : String
  destExists : Bool
  overwriteAnswer : Bool
  moveRaises : Bool
deriving DecidableEq

/-- The observable actions of one `move_files` call: names printed as
skipped, names for which `shutil.move` was invoked, names recorded in
`moved_files`, and whether an exception escaped the loop into the
`except` handler. -/
structure MoveTrace where
  moved : List String
  skipped : List String
  attempted : List String
  raised : Bool
deriving DecidableEq

/-- A file is skipped when its destination name exists and the user
declines the overwrite prompt. -/
def MoveFile.isSkipped (f : MoveFile) : Bool := f.destExists && !f.overwriteAnswer

/-- A file reaches the `shutil.move` call iff it is not skipped. -/
def MoveFile.isAttempted (f : MoveFile) : Bool := !f.isSkipped

/-- A file makes `move_files` raise iff its move is attempted and
`shutil.move` raises. -/
def MoveFile.fails (f : MoveFile) : Bool := f.isAttempted && f.moveRaises

/-- The `for file in files:` loop of `move_files`.  A skipped file is
recorded and the loop continues; otherwise `shutil.move` is invoked and,
if it raises, the exception propagates to the `except` handler of
`move_files` (ending the loop: no later file is processed). -/
def move_files_loop : List MoveFile → MoveTrace → MoveTrace
  | [], t => t
  | f :: rest, t =>
    if f.isSkipped then
      move_files_loop rest { t with skipped := t.skipped ++ [f.name] }
    else if f.moveRaises then
      { t with attempted := t.attempted ++ [f.name], raised := true }
    else
      move_files_loop rest
        { t with moved := t.moved ++ [f.name], attempted := t.attempted ++ [f.name] }

/-- The trace of `move_files(files, destination)`, starting from an empty
`moved_files` list. -/
def move_files_trace (files : List MoveFile) : MoveTrace :=
  move_files_loop files ⟨[], [], [], false⟩

/-- The return value of `move_files`: `False` when the `except` handler
ran, otherwise `True` iff `moved_files` is non-empty. -/
def move_files (files : List MoveFile) : Bool :=
  let t := move_files_trace files
  if t.raised then false else !t.moved.isEmpty

/-- The names of the files of a batch that reach `shutil.move` (in batch
order), assuming the loop is not ended early by an exception. -/
def attempted_names (files : List MoveFile) : List String :=
  (files.filter MoveFile.isAttempted).map MoveFile.name

/-- The names of the files of a batch that are skipped at the overwrite
prompt (in batch order), assuming the loop is not ended early by an
exception. -/
def skipped_names (files : List MoveFile) : List String :=
  (files.filter MoveFile.isSkipped).map MoveFile.name

/-- The observable outcome of `FileMover.run` from the point where the
file selection is known. -/
inductive RunOutcome where
  | noFilesSelected
  | sameDirRefused
  | cancelled
  | batchMoved (t : MoveTrace) (returned : Bool)
deriving DecidableEq

/-- The decision logic of `FileMover.run` after the interactive
selections: `source_resolved` and `dest_resolved` are
`str(source_dir.resolve())` and `str(dest_dir.resolve())`.  An empty
selection exits first; then identical resolved directories are refused
before the preview and before `move_files` is ever invoked; then the
final confirmation decides between moving and cancelling. -/
def run_workflow (source_resolved dest_resolved : String)
    (selected : List MoveFile) (confirmMove : Bool) : RunOutcome :=
  if selected.isEmpty then .noFilesSelected
  else if source_resolved = dest_resolved then .sameDirRefused
  else if confirmMove then .batchMoved (move_files_trace selected) (move_files selected)
  else .cancelled

/-- A name the scan filter accepts: it does not start with `.` and its
lowercase form is not a member of `skip_dirs`. -/
def good_name (s : String) : Prop :=
  py_startswith s "." = false ∧ skip_dirs.contains (py_lower s) = false

/-- Invariant of the cache during a scan: every stored path has at most
`maxDepth + 1` segments and every one of its segments passed the scan
filter. -/
def cache_ok (maxDepth : Nat) (c : List (String × List String)) : Prop :=
  ∀ kv ∈ c, kv.2.length ≤ maxDepth + 1 ∧ ∀ s ∈ kv.2, good_name s

/-! ### Order facts for the sort key -/

theorem chars_lt_asymm : ∀ x y : List Char,
    chars_lt x y = true → chars_lt y x = false := by
  intro x
  induction x with
  | nil => intro y h; cases y <;> simp [chars_lt] at *
  | cons a as ih =>
    intro y h
    cases y with
    | nil => simp [chars_lt] at h
    | cons b bs =>
      simp only [chars_lt, Bool.or_eq_true, Bool.and_eq_true, decide_eq_true_eq,
        beq_iff_eq, Bool.or_eq_false_iff, Bool.and_eq_false_iff,
        decide_eq_false_iff_not] at h ⊢
      rcases h with h | ⟨hEq, hRec⟩
      · constructor
        · omega
        · left; simp; omega
      · refine ⟨by omega, ?_⟩
        right
        exact ih bs hRec

theorem chars_lt_neg_trans : ∀ x y z : List Char,
    chars_lt y x = false → chars_lt z y = false → chars_lt z x = false := by
  intro x
  induction x with
  | nil =>
    intro y z h1 h2
    cases z <;> simp [chars_lt]
  | cons a as ih =>
    intro y z h1 h2
    cases y with
    | nil => simp [chars_lt] at h1
    | cons b bs =>
      cases z with
      | nil => simp [chars_lt] at h2
      | cons c cs =>
        simp only [chars_lt, Bool.or_eq_false_iff, Bool.and_eq_false_iff,
          decide_eq_false_iff_not, beq_eq_false_iff_ne, ne_eq,
          Bool.or_eq_true, Bool.and_eq_true, decide_eq_true_eq, beq_iff_eq] at h1 h2 ⊢
        rcases h1 with ⟨hba, h1'⟩
        rcases h2 with ⟨hcb, h2'⟩
        refine ⟨by omega, ?_⟩
        by_cases hca : c.toNat = a.toNat
        · right
          have hcb' : c.toNat = b.toNat := by omega
          have hba' : b.toNat = a.toNat := by omega
          rcases h1' with h1' | h1'
          · omega
          · rcases h2' with h2' | h2'
            · omega
            · exact ih bs cs h1' h2'
        · left; exact hca

theorem py_str_le_total (a b : String) :
    py_str_le a b = true ∨ py_str_le b a = true := by
  unfold py_str_le
  by_cases h : py_str_lt b a = true
  · right
    unfold py_str_lt at *
    simp [chars_lt_asymm _ _ h]
  · left
    simp [Bool.not_eq_true] at h
    simp [h]

theorem py_str_le_trans (a b c : String) :
    py_str_le a b = true → py_str_le b c = true → py_str_le a c = true := by
  unfold py_str_le py_str_lt
  simp only [Bool.not_eq_true']
  exact fun h1 h2 => chars_lt_neg_trans a.data b.data c.data h1 h2

instance : IsTotal ScoredMatch match_le := by
  constructor
  intro a b
  unfold match_le
  rcases Nat.lt_trichotomy a.score b.score with h | h | h
  · right; left; exact h
  · rcases py_str_le_total a.display b.display with hd | hd
    · left; right; exact ⟨h, hd⟩
    · right; right; exact ⟨h.symm, hd⟩
  · left; left; exact h

instance : IsTrans ScoredMatch match_le := by
  constructor
  intro a b c hab hbc
  unfold match_le at *
  rcases hab with hab | ⟨hab, hab'⟩
  · rcases hbc with hbc | ⟨hbc, hbc'⟩
    · left; omega
    · left; omega
  · rcases hbc with hbc | ⟨hbc, hbc'⟩
    · left; omega
    · right
      exact ⟨by omega, py_str_le_trans _ _ _ hab' hbc'⟩

/-! ### Behaviour of the move loop -/

theorem move_files_loop_no_fail :
    ∀ (l : List MoveFile) (t : MoveTrace), (∀ f ∈ l, f.fails = false) →
    move_files_loop l t =
      ⟨t.moved ++ attempted_names l, t.skipped ++ skipped_names l,
       t.attempted ++ attempted_names l, t.raised⟩ := by
  intro l
  induction l with
  | nil => intro t _; simp [move_files_loop, attempted_names, skipped_names]
  | cons f rest ih =>
    intro t h
    have hf : f.fails = false := h f (List.mem_cons_self f rest)
    have hrest : ∀ g ∈ rest, g.fails = false := fun g hg => h g (List.mem_cons_of_mem f hg)
    by_cases hs : f.isSkipped = true
    · have hAtt : f.isAttempted = false := by
        simp [MoveFile.isAttempted, hs]
      rw [show move_files_loop (f :: rest) t =
            move_files_loop rest { t with skipped := t.skipped ++ [f.name] } by
          simp [move_files_loop, hs]]
      rw [ih _ hrest]
      simp [attempted_names, skipped_names, hs, hAtt]
    · have hs' : f.isSkipped = false := by simpa using hs
      have hAtt : f.isAttempted = true := by simp [MoveFile.isAttempted, hs']
      have hr : f.moveRaises = false := by
        have := hf
        simp only [MoveFile.fails, hAtt, Bool.true_and] at this
        exact this
      rw [show move_files_loop (f :: rest) t =
            move_files_loop rest
              { t with moved := t.moved ++ [f.name],
                       attempted := t.attempted ++ [f.name] } by
          simp [move_files_loop, hs', hr]]
      rw [ih _ hrest]
      simp [attempted_names, skipped_names, hs', hAtt]

theorem move_files_loop_fail :
    ∀ (pre : List MoveFile) (f : MoveFile) (post : List MoveFile) (t : MoveTrace),
    (∀ g ∈ pre, g.fails = false) → f.fails = true →
    move_files_loop (pre ++ f :: post) t =
      ⟨t.moved ++ attempted_names pre, t.skipped ++ skipped_names pre,
       t.attempted ++ attempted_names pre ++ [f.name], true⟩ := by
  intro pre
  induction pre with
  | nil =>
    intro f post t _ hf
    have hAtt : f.isAttempted = true := by
      rcases Bool.eq_false_or_eq_true f.isAttempted with h | h
      · exact h
      · simp [MoveFile.fails, h] at hf
    have hs : f.isSkipped = false := by
      simpa [MoveFile.isAttempted] using hAtt
    have hr : f.moveRaises = true := by
      simp only [MoveFile.fails, hAtt, Bool.true_and] at hf
      exact hf
    simp [move_files_loop, hs, hr, attempted_names, skipped_names]
  | cons g pre ih =>
    intro f post t h hf
    have hg : g.fails = false := h g (List.mem_cons_self g pre)
    have hpre : ∀ g' ∈ pre, g'.fails = false := fun g' hg' => h g' (List.mem_cons_of_mem g hg')
    by_cases hs : g.isSkipped = true
    · have hAtt : g.isAttempted = false := by simp [MoveFile.isAttempted, hs]
      rw [show move_files_loop ((g :: pre) ++ f :: post) t =
            move_files_loop (pre ++ f :: post) { t with skipped := t.skipped ++ [g.name] } by
          simp [move_files_loop, hs]]
      rw [ih f post _ hpre hf]
      simp [attempted_names, skipped_names, hs, hAtt]
    · have hs' : g.isSkipped = false := by simpa using hs
      have hAtt : g.isAttempted = true := by simp [MoveFile.isAttempted, hs']
      have hr : g.moveRaises = false := by
        simp only [MoveFile.fails, hAtt, Bool.true_and] at hg
        exact hg
      rw [show move_files_loop ((g :: pre) ++ f :: post) t =
            move_files_loop (pre ++ f :: post)
              { t with moved := t.moved ++ [g.name],
                       attempted := t.attempted ++ [g.name] } by
          simp [move_files_loop, hs', hr]]
      rw [ih f post _ hpre hf]
      simp [attempted_names, skipped_names, hs', hAtt]

theorem move_files_loop_raised :
    ∀ (l : List MoveFile) (t : MoveTrace),
    (move_files_loop l t).raised = (t.raised || l.any MoveFile.fails) := by
  intro l
  induction l with
  | nil => intro t; simp [move_files_loop]
  | cons f rest ih =>
    intro t
    by_cases hs : f.isSkipped = true
    · have hAtt : f.isAttempted = false := by simp [MoveFile.isAttempted, hs]
      have hfails : f.fails = false := by simp [MoveFile.fails, hAtt]
      rw [show move_files_loop (f :: rest) t =
            move_files_loop rest { t with skipped := t.skipped ++ [f.name] } by
          simp [move_files_loop, hs]]
      rw [ih]
      simp [hfails]
    · have hs' : f.isSkipped = false := by simpa using hs
      have hAtt : f.isAttempted = true := by simp [MoveFile.isAttempted, hs']
      by_cases hr : f.moveRaises = true
      · have hfails : f.fails = true := by simp [MoveFile.fails, hAtt, hr]
        rw [show move_files_loop (f :: rest) t =
              { t with attempted := t.attempted ++ [f.name], raised := true } by
            simp [move_files_loop, hs', hr]]
        simp [hfails]
      · have hr' : f.moveRaises = false := by simpa using hr
        have hfails : f.fails = false := by simp [MoveFile.fails, hr']
        rw [show move_files_loop (f :: rest) t =
              move_files_loop rest
                { t with moved := t.moved ++ [f.name],
                         attempted := t.attempted ++ [f.name] } by
            simp [move_files_loop, hs', hr']]
        rw [ih]
        simp [hfails]

/-! ### Behaviour of the index scan -/

theorem dict_insert_ok {maxDepth : Nat} {c : List (String × List String)}
    {k : String} {v : List String} (hc : cache_ok maxDepth c)
    (hv : v.length ≤ maxDepth + 1 ∧ ∀ s ∈ v, good_name s) :
    cache_ok maxDepth (dict_insert c k v) := by
  unfold dict_insert
  split
  · intro kv hkv
    rcases List.mem_map.mp hkv with ⟨p, hp, hpe⟩
    by_cases hpk : p.1 = k
    · rw [if_pos hpk] at hpe
      rw [← hpe]
      exact hv
    · rw [if_neg hpk] at hpe
      rw [← hpe]
      exact hc p hp
  · intro kv hkv
    rcases List.mem_append.mp hkv with h | h
    · exact hc kv h
    · rcases List.mem_singleton.mp h with rfl
      exact hv

theorem scan_inv (maxDepth maxItems : Nat) : ∀ n : Nat,
    (∀ es : List Dirent, sizeOf es < n → ∀ depth path st,
      path.length = depth → depth ≤ maxDepth → (∀ s ∈ path, good_name s) →
      st.scanned ≤ maxItems + 1 → cache_ok maxDepth st.cache →
      (scan_children maxDepth maxItems depth path es st).scanned ≤ maxItems + 1 ∧
      cache_ok maxDepth (scan_children maxDepth maxItems depth path es st).cache) ∧
    (∀ e : Dirent, sizeOf e < n → ∀ depth path st,
      path.length = depth → (∀ s ∈ path, good_name s) →
      st.scanned ≤ maxItems + 1 → cache_ok maxDepth st.cache →
      (scan_local_directory maxDepth maxItems depth path e st).scanned ≤ maxItems + 1 ∧
      cache_ok maxDepth (scan_local_directory maxDepth maxItems depth path e st).cache) := by
  intro n
  induction n with
  | zero =>
    exact ⟨fun es h => absurd h (Nat.not_lt_zero _),
           fun e h => absurd h (Nat.not_lt_zero _)⟩
  | succ n ih =>
    obtain ⟨ihL, ihD⟩ := ih
    constructor
    · intro es hes depth path st hlen hdepth hgood hcount hcache
      cases es with
      | nil =>
        simp only [scan_children]
        exact ⟨hcount, hcache⟩
      | cons e rest =>
        have hsz := List.cons.sizeOf_spec e rest
        have hre : sizeOf rest < n := by omega
        have hee : sizeOf e < n := by omega
        simp only [scan_children]
        split_ifs with h1 h2 h3
        · exact ⟨hcount, hcache⟩
        · exact ihL rest hre depth path st hlen hdepth hgood hcount hcache
        · exact ihL rest hre depth path st hlen hdepth hgood hcount hcache
        · have hname : good_name e.name := by
            constructor
            · rcases Bool.eq_false_or_eq_true (py_startswith e.name ".") with h | h
              · exact absurd (by simp [h]) h2
              · exact h
            · rcases Bool.eq_false_or_eq_true (skip_dirs.contains (py_lower e.name)) with h | h
              · exact absurd h h3
              · exact h
          have hv : (path ++ [e.name]).length ≤ maxDepth + 1 ∧
              ∀ s ∈ path ++ [e.name], good_name s := by
            constructor
            · simp [hlen]; omega
            · intro s hs
              rcases List.mem_append.mp hs with h | h
              · exact hgood s h
              · rcases List.mem_singleton.mp h with rfl
                exact hname
          have hst1 : (⟨dict_insert (dict_insert st.cache (py_lower e.name)
                (path ++ [e.name])) (rel_key (path ++ [e.name])) (path ++ [e.name]),
                st.scanned + 1⟩ : ScanState).scanned ≤ maxItems + 1 := by
            simp; omega
          have hc1 : cache_ok maxDepth (dict_insert (dict_insert st.cache
              (py_lower e.name) (path ++ [e.name])) (rel_key (path ++ [e.name]))
              (path ++ [e.name])) :=
            dict_insert_ok (dict_insert_ok hcache hv) hv
          have hpath' : (path ++ [e.name]).length = depth + 1 := by
            simp [hlen]
          have hgood' : ∀ s ∈ path ++ [e.name], good_name s := hv.2
          have hd := ihD e hee (depth + 1) (path ++ [e.name]) _ hpath' hgood' hst1 hc1
          exact ihL rest hre depth path _ hlen hdepth hgood hd.1 hd.2
    · intro e hee depth path st hlen hgood hcount hcache
      cases e with
      | mk nm d children =>
        have hsz := Dirent.mk.sizeOf_spec nm d children
        have hcc : sizeOf children < n := by omega
        simp only [scan_local_directory]
        split_ifs with h
        · exact ⟨hcount, hcache⟩
        · simp only [Bool.or_eq_true, decide_eq_true_eq, not_or] at h
          have hdepth : depth ≤ maxDepth := by
            rcases h with ⟨h', _⟩
            omega
          have hcount' : st.scanned ≤ maxItems := by
            rcases h with ⟨_, h'⟩
            omega
          exact ihL children hcc depth path st hlen hdepth hgood (by omega) hcache

/-! ### Behaviour of the ranking engine -/

theorem mem_search_matches {ql : String} {cache : List (String × PyPath)}
    {a : ScoredMatch} :
    a ∈ search_matches ql cache ↔
      ∃ kp ∈ cache, 0 < match_score ql kp.1 kp.2 ∧
        a = ⟨kp.2.display, kp.2, match_score ql kp.1 kp.2⟩ := by
  unfold search_matches
  rw [List.mem_filterMap]
  constructor
  · rintro ⟨kp, hkp, hf⟩
    simp only [Option.ite_none_right_eq_some, Option.some.injEq] at hf
    exact ⟨kp, hkp, hf.1, hf.2.symm⟩
  · rintro ⟨kp, hkp, hpos, rfl⟩
    refine ⟨kp, hkp, ?_⟩
    simp [hpos]

theorem match_score_exact {ql key : String} {p : PyPath}
    (h : py_lower p.name = ql) : match_score ql key p = 100 := by
  unfold match_score
  rw [if_pos h.symm]

theorem match_score_starts {ql key : String} {p : PyPath}
    (hne : py_lower p.name ≠ ql) (hpre : py_startswith (py_lower p.name) ql = true) :
    match_score ql key p = 90 := by
  unfold match_score
  rw [if_neg (fun he => hne he.symm), if_pos hpre]

theorem sorted_matches_sorted (ql : String) (cache : List (String × PyPath)) :
    List.Sorted match_le (sorted_matches ql cache) :=
  List.sorted_insertionSort match_le (search_matches ql cache)

theorem sorted_matches_perm (ql : String) (cache : List (String × PyPath)) :
    (sorted_matches ql cache).Perm (search_matches ql cache) :=
  List.perm_insertionSort match_le (search_matches ql cache)

/-- In the sorted match list, an element with a strictly greater score sits
strictly earlier. -/
theorem sorted_matches_score_position {ql : String} {cache : List (String × PyPath)}
    {i j : Fin (sorted_matches ql cache).length}
    (h : ((sorted_matches ql cache).get j).score < ((sorted_matches ql cache).get i).score) :
    i < j := by
  by_contra hij
  push_neg at hij
  rcases lt_or_eq_of_le hij with hlt | heq
  · have hp := (sorted_matches_sorted ql cache)
    rw [List.Sorted, List.pairwise_iff_get] at hp
    have := hp j i hlt
    unfold match_le at this
    rcases this with h' | ⟨h', _⟩ <;> omega
  · rw [heq] at h
    omega

theorem search_matches_length (ql : String) (cache : List (String × PyPath)) :
    (search_matches ql cache).length =
      cache.countP fun kp => decide (0 < match_score ql kp.1 kp.2) := by
  induction cache with
  | nil => simp [search_matches]
  | cons kp rest ih =>
    unfold search_matches at ih ⊢
    rw [List.filterMap_cons, List.countP_cons]
    by_cases h : 0 < match_score ql kp.1 kp.2
    · simp only [if_pos h]
      simp [ih, h]
    · simp only [if_neg h]
      simp [ih, h]

/-! ### Claims -/

/-- Claim C9: for every index and every limit, calling `simple_search`
with an empty or whitespace-only query returns the empty list: no entries
are matched. -/
theorem claim_C9 (query : String) (cache : List (String × PyPath))
    (limit : Nat) (h : py_strip_empty query = true) :
    simple_search query cache limit = [] := by
  unfold simple_search
  rw [if_pos h]

/-- Witness for C9 at the whitespace-only query `"   "` with a non-trivial
index. -/
theorem claim_C9_witness :
    py_strip_empty "   " = true ∧
    simple_search "   " [("docs", ⟨"/h/docs", "docs"⟩)] 10 = [] :=
  ⟨by decide, claim_C9 "   " [("docs", ⟨"/h/docs", "docs"⟩)] 10 (by decide)⟩

/-- Claim C8: when the resolved source and destination directories are
equal, the workflow (given a non-empty selection, which is checked first
in `run`) refuses with the same-directory error, and in particular never
reaches `move_files`: no move trace exists, zero files are touched. -/
theorem claim_C8 (resolved : String) (selected : List MoveFile)
    (confirmMove : Bool) (h : selected ≠ []) :
    run_workflow resolved resolved selected confirmMove = RunOutcome.sameDirRefused ∧
    ∀ t b, run_workflow resolved resolved selected confirmMove ≠ RunOutcome.batchMoved t b := by
  have hne : selected.isEmpty = false := by
    simpa [List.isEmpty_iff] using h
  constructor
  · simp [run_workflow, hne]
  · intro t b
    simp [run_workflow, hne]

/-- Witness for C8: a one-file selection with source and destination both
resolving to `/home/u/d`. -/
theorem claim_C8_witness :
    ([⟨"a", false, false, false⟩] : List MoveFile) ≠ [] ∧
    (run_workflow "/home/u/d" "/home/u/d" [⟨"a", false, false, false⟩] true =
        RunOutcome.sameDirRefused ∧
      ∀ t b, run_workflow "/home/u/d" "/home/u/d" [⟨"a", false, false, false⟩] true ≠
        RunOutcome.batchMoved t b) :=
  ⟨by decide, claim_C8 "/home/u/d" [⟨"a", false, false, false⟩] true (by decide)⟩

/-- Claim C1 (counterexample): in the batch `[a, b]` where moving `a`
raises and `b` would move fine, `shutil.move` is invoked for `a` only:
the failure on the first file prevents the file after it from being
attempted, contradicting the claim that the batch continues after a
per-file failure. -/
theorem claim_C1_counterexample :
    (move_files_trace [⟨"a", false, false, true⟩, ⟨"b", false, false, false⟩]).attempted = ["a"] ∧
    "b" ∉ (move_files_trace [⟨"a", false, false, true⟩, ⟨"b", false, false, false⟩]).attempted ∧
    move_files [⟨"a", false, false, true⟩, ⟨"b", false, false, false⟩] = false := by
  decide

/-- Claim C1 (amended): an I/O failure on one file is caught and reported
at the batch level (`move_files` returns `False` instead of propagating
the exception), but it does not leave failure per-file: the `try` block
wraps the whole loop, so when the first failing file raises, exactly the
non-skipped files before it plus the failing file itself have reached
`shutil.move`, no file after the failing one is attempted, and
`move_files` returns `False`. -/
theorem claim_C1 (pre : List MoveFile) (f : MoveFile) (post : List MoveFile)
    (hpre : ∀ g ∈ pre, g.fails = false) (hf : f.fails = true) :
    move_files_trace (pre ++ f :: post) =
      ⟨attempted_names pre, skipped_names pre, attempted_names pre ++ [f.name], true⟩ ∧
    move_files (pre ++ f :: post) = false := by
  have h := move_files_loop_fail pre f post ⟨[], [], [], false⟩ hpre hf
  have htr : move_files_trace (pre ++ f :: post) =
      ⟨attempted_names pre, skipped_names pre, attempted_names pre ++ [f.name], true⟩ := by
    unfold move_files_trace
    rw [h]
    simp
  refine ⟨htr, ?_⟩
  simp [move_files, htr]

/-- Witness for C1 (amended): a three-file batch whose first file is
skipped at the prompt, whose second file raises, and whose third file is
never attempted. -/
theorem claim_C1_witness :
    (∀ g ∈ ([⟨"p", true, false, false⟩] : List MoveFile), g.fails = false) ∧
    (⟨"f", false, false, true⟩ : MoveFile).fails = true ∧
    (move_files_trace [⟨"p", true, false, false⟩, ⟨"f", false, false, true⟩,
        ⟨"q", false, false, false⟩] =
      ⟨attempted_names [⟨"p", true, false, false⟩],
       skipped_names [⟨"p", true, false, false⟩],
       attempted_names [⟨"p", true, false, false⟩] ++ ["f"], true⟩ ∧
     move_files [⟨"p", true, false, false⟩, ⟨"f", false, false, true⟩,
        ⟨"q", false, false, false⟩] = false) :=
  ⟨by decide, by decide,
    claim_C1 [⟨"p", true, false, false⟩] ⟨"f", false, false, true⟩
      [⟨"q", false, false, false⟩] (by decide) (by decide)⟩

/-- Claim C7: in a batch where no attempted move raises, a file whose
destination name exists and whose overwrite prompt is declined is recorded
as skipped and never reaches `shutil.move` (it stays at its source path),
while the batch continues: the trace records exactly the non-skipped
files as attempted and moved, the skipped files as skipped, and no
exception. -/
theorem claim_C7 (files : List MoveFile) (h : ∀ f ∈ files, f.fails = false) :
    move_files_trace files =
      ⟨attempted_names files, skipped_names files, attempted_names files, false⟩ ∧
    ∀ f ∈ files, f.isSkipped = true → f.name ∈ (move_files_trace files).skipped := by
  have htr : move_files_trace files =
      ⟨attempted_names files, skipped_names files, attempted_names files, false⟩ := by
    unfold move_files_trace
    rw [move_files_loop_no_fail files _ h]
    simp
  refine ⟨htr, ?_⟩
  intro f hf hs
  rw [htr]
  exact List.mem_map_of_mem MoveFile.name (List.mem_filter.mpr ⟨hf, hs⟩)

/-- Witness for C7: the spec scenario, a two-file batch where `a` collides
at the destination and the user declines while `b` moves: the report shows
one moved (`b`) and one skipped (`a`), and `move_files` returns `True`. -/
theorem claim_C7_witness :
    (∀ f ∈ ([⟨"a", true, false, false⟩, ⟨"b", false, false, false⟩] : List MoveFile),
        f.fails = false) ∧
    move_files_trace [⟨"a", true, false, false⟩, ⟨"b", false, false, false⟩] =
      ⟨attempted_names [⟨"a", true, false, false⟩, ⟨"b", false, false, false⟩],
       skipped_names [⟨"a", true, false, false⟩, ⟨"b", false, false, false⟩],
       attempted_names [⟨"a", true, false, false⟩, ⟨"b", false, false, false⟩], false⟩ ∧
    attempted_names [⟨"a", true, false, false⟩, ⟨"b", false, false, false⟩] = ["b"] ∧
    skipped_names [⟨"a", true, false, false⟩, ⟨"b", false, false, false⟩] = ["a"] ∧
    move_files [⟨"a", true, false, false⟩, ⟨"b", false, false, false⟩] = true :=
  ⟨by decide,
   (claim_C7 [⟨"a", true, false, false⟩, ⟨"b", false, false, false⟩] (by decide)).1,
   by decide, by decide, by decide⟩

/-- Claim C10 (counterexample): in the batch `[c, d]` where `c` moves fine
and `d` raises, one file was actually moved (`c` is in `moved_files` and
was moved on disk before the exception), yet `move_files` returns `False`:
the claimed "True iff at least one file was actually moved" fails. -/
theorem claim_C10_counterexample :
    move_files [⟨"c", false, false, false⟩, ⟨"d", false, false, true⟩] = false ∧
    (move_files_trace [⟨"c", false, false, false⟩, ⟨"d", false, false, true⟩]).moved = ["c"] := by
  decide

/-- Claim C10 (amended): `move_files` returns `True` iff the batch ran
without an exception and at least one file reached `shutil.move` (i.e.
was moved): an all-skipped or empty batch returns `False`, and a caught
exception returns `False` even when files before the failure were really
moved. -/
theorem claim_C10 (files : List MoveFile) :
    move_files files = true ↔
      (∀ f ∈ files, f.fails = false) ∧ ∃ f ∈ files, f.isAttempted = true := by
  have hraised : (move_files_trace files).raised = files.any MoveFile.fails := by
    unfold move_files_trace
    rw [move_files_loop_raised]
    simp
  by_cases hany : files.any MoveFile.fails = true
  · have hr : (move_files_trace files).raised = true := by rw [hraised, hany]
    have hmf : move_files files = false := by
      simp [move_files, hr]
    rw [hmf]
    constructor
    · intro h
      exact absurd h (by simp)
    · rintro ⟨hall, -⟩
      rcases List.any_eq_true.mp hany with ⟨f, hf, hffails⟩
      rw [hall f hf] at hffails
      cases hffails
  · have hanyf : files.any MoveFile.fails = false := by
      simpa using hany
    have hall : ∀ f ∈ files, f.fails = false := by
      intro f hf
      simpa using (List.any_eq_false.mp hanyf) f hf
    have htr : move_files_trace files =
        ⟨attempted_names files, skipped_names files, attempted_names files, false⟩ := by
      unfold move_files_trace
      rw [move_files_loop_no_fail files _ hall]
      simp
    simp only [move_files, htr]
    constructor
    · intro h
      refine ⟨hall, ?_⟩
      have hne : attempted_names files ≠ [] := by
        intro hnil
        rw [hnil] at h
        simp at h
      have : files.filter MoveFile.isAttempted ≠ [] := by
        intro hnil
        unfold attempted_names at hne
        rw [hnil] at hne
        simp at hne
      rcases List.exists_mem_of_ne_nil _ this with ⟨f, hf⟩
      rcases List.mem_filter.mp hf with ⟨hfm, hfa⟩
      exact ⟨f, hfm, hfa⟩
    · rintro ⟨-, f, hf, hfa⟩
      have : f.name ∈ attempted_names files :=
        List.mem_map_of_mem MoveFile.name (List.mem_filter.mpr ⟨hf, hfa⟩)
      have hne : attempted_names files ≠ [] := by
        intro hnil
        rw [hnil] at this
        exact absurd this (List.not_mem_nil _)
      simpa [List.isEmpty_iff] using hne

/-- Claim C3 (counterexample): with `maxItems = 1` (the cap is universally
quantified in the claim), a root with three eligible children yields an
index of two entries and a scanned count of 2 > 1: the strict `>` checks
let the scan collect one entry past the cap, so "never collects more than
maxItems entries" is false. -/
theorem claim_C3_counterexample :
    build_local_directory_index 4 1
        (.mk "root" true [.mk "a" true [], .mk "b" true [], .mk "c" true []]) =
      ⟨[("a", ["a"]), ("b", ["b"])], 2⟩ := by
  simp +decide [build_local_directory_index, scan_local_directory, scan_children,
    dict_insert, rel_key, skip_dirs]

/-- Claim C3 (amended): for every tree and all finite caps, the scan never
collects more than `maxItems + 1` entries (the off-by-one comes from the
strict `scanned_count > max_items` checks), and never stores a path of
more than `maxDepth + 1` segments (the entries reachable at the deepest
permitted recursion level, `depth = maxDepth`, are `maxDepth + 1` segments
below the root). -/
theorem claim_C3 (root : Dirent) (maxDepth maxItems : Nat) :
    (build_local_directory_index maxDepth maxItems root).scanned ≤ maxItems + 1 ∧
    ((build_local_directory_index maxDepth maxItems root).cache.all
      fun kv => decide (kv.2.length ≤ maxDepth + 1)) = true := by
  have h := (scan_inv maxDepth maxItems (sizeOf root + 1)).2 root (by omega) 0 [] ⟨[], 0⟩
    rfl (by intro s hs; exact absurd hs (List.not_mem_nil s)) (by simp)
    (by intro kv hkv; exact absurd hkv (List.not_mem_nil kv))
  unfold build_local_directory_index
  refine ⟨h.1, ?_⟩
  rw [List.all_eq_true]
  intro kv hkv
  simpa using (h.2 kv hkv).1

/-- Claim C6: a filesystem entry whose leaf name starts with `.`, or whose
lowercase leaf name is a member of the skip set, never appears as a
segment of any indexed path: the entry itself is absent from the index and
so is its entire subtree, whose paths would all pass through that
segment (the traversal never descends into such an entry). -/
theorem claim_C6 (root : Dirent) (maxDepth maxItems : Nat) (bad : String)
    (h : py_startswith bad "." = true ∨ skip_dirs.contains (py_lower bad) = true) :
    ((build_local_directory_index maxDepth maxItems root).cache.all
      fun kv => !kv.2.contains bad) = true := by
  have hM := (scan_inv maxDepth maxItems (sizeOf root + 1)).2 root (by omega) 0 [] ⟨[], 0⟩
    rfl (by intro s hs; exact absurd hs (List.not_mem_nil s)) (by simp)
    (by intro kv hkv; exact absurd hkv (List.not_mem_nil kv))
  unfold build_local_directory_index
  rw [List.all_eq_true]
  intro kv hkv
  have hok := hM.2 kv hkv
  simp only [Bool.not_eq_true']
  have hmem : bad ∉ kv.2 := by
    intro hbad
    rcases hok.2 bad hbad with ⟨hstarts, hskip⟩
    rcases h with h' | h'
    · rw [h'] at hstarts
      cases hstarts
    · rw [h'] at hskip
      cases hskip
  simpa using hmem

/-- Witness for C6: the skip-set member `.git` (hidden and in the skip
set) is absent from every path of the index built over a tree containing
a `.git` directory with a child. -/
theorem claim_C6_witness :
    (py_startswith ".git" "." = true ∨ skip_dirs.contains (py_lower ".git") = true) ∧
    ((build_local_directory_index 4 500
        (.mk "root" true
          [.mk ".git" true [.mk "objects" true []], .mk "src" true []])).cache.all
      fun kv => !kv.2.contains ".git") = true :=
  ⟨Or.inl (by decide),
   claim_C6 (.mk "root" true [.mk ".git" true [.mk "objects" true []], .mk "src" true []])
     4 500 ".git" (Or.inl (by decide))⟩

/-- Claim C2 (counterexample): the path `/root/stuff/docs` is indexed
under both its name key `docs` and its relative-path key `stuff/docs`;
searching `docs` returns that resolved path twice, so the result list is
not deduplicated by resolved path. -/
theorem claim_C2_counterexample :
    simple_search "docs"
        [("docs", ⟨"/root/stuff/docs", "docs"⟩),
         ("stuff/docs", ⟨"/root/stuff/docs", "docs"⟩)] 10 =
      [("/root/stuff/docs", ⟨"/root/stuff/docs", "docs"⟩),
       ("/root/stuff/docs", ⟨"/root/stuff/docs", "docs"⟩)] ∧
    ((simple_search "docs"
        [("docs", ⟨"/root/stuff/docs", "docs"⟩),
         ("stuff/docs", ⟨"/root/stuff/docs", "docs"⟩)] 10).map Prod.snd).count
      ⟨"/root/stuff/docs", "docs"⟩ = 2 := by
  decide

/-- Claim C2 (amended): `simple_search` performs no deduplication by
resolved path: for a non-blank query it returns one result entry per
matching index key, truncated to the limit - its length is exactly
`min limit (number of cache keys with a positive score)`, so a path
indexed under several matching keys appears once per such key. -/
theorem claim_C2 (query : String) (cache : List (String × PyPath))
    (limit : Nat) (h : py_strip_empty query = false) :
    (simple_search query cache limit).length =
      min limit (cache.countP fun kp =>
        decide (0 < match_score (py_lower query) kp.1 kp.2)) := by
  unfold simple_search
  rw [if_neg (by simp [h])]
  simp only [List.length_map, List.length_take]
  rw [(sorted_matches_perm (py_lower query) cache).length_eq,
    search_matches_length]

/-- Witness for C2 (amended) on the doubly-indexed cache of the
counterexample: two matching keys, limit 10, so two result entries for
one resolved path. -/
theorem claim_C2_witness :
    py_strip_empty "docs" = false ∧
    (simple_search "docs"
        [("docs", ⟨"/root/stuff/docs", "docs"⟩),
         ("stuff/docs", ⟨"/root/stuff/docs", "docs"⟩)] 10).length =
      min 10 ([("docs", (⟨"/root/stuff/docs", "docs"⟩ : PyPath)),
         ("stuff/docs", ⟨"/root/stuff/docs", "docs"⟩)].countP fun kp =>
        decide (0 < match_score (py_lower "docs") kp.1 kp.2)) :=
  ⟨by decide,
   claim_C2 "docs"
     [("docs", ⟨"/root/stuff/docs", "docs"⟩),
      ("stuff/docs", ⟨"/root/stuff/docs", "docs"⟩)] 10 (by decide)⟩

/-- Claim C4: ranking follows exactly the four-tier precedence of the
spec - the score of every cache item equals the spec tier (with excluded
entries scored 0, and a positive score exactly when a tier applies) - and
consequently, in the ranked list, every entry whose lowercase name equals
the lowercase query sits strictly before every entry whose lowercase name
merely starts with it. -/
theorem claim_C4 (q : String) (cache : List (String × PyPath)) :
    (∀ key p, match_score (py_lower q) key p =
        (rank_tier_spec (py_lower q) key p).getD 0) ∧
    (∀ key p, 0 < match_score (py_lower q) key p ↔
        (rank_tier_spec (py_lower q) key p).isSome = true) ∧
    ∀ i j : Fin (sorted_matches (py_lower q) cache).length,
      py_lower ((sorted_matches (py_lower q) cache).get i).path.name = py_lower q →
      py_startswith (py_lower ((sorted_matches (py_lower q) cache).get j).path.name)
          (py_lower q) = true →
      py_lower ((sorted_matches (py_lower q) cache).get j).path.name ≠ py_lower q →
      i < j := by
  refine ⟨?_, ?_, ?_⟩
  · intro key p
    simp only [match_score, rank_tier_spec]
    split_ifs <;> simp
  · intro key p
    simp only [match_score, rank_tier_spec]
    split_ifs <;> simp
  · intro i j hiname hjpre hjne
    have hscore : ∀ k : Fin (sorted_matches (py_lower q) cache).length,
        ∃ key, ((sorted_matches (py_lower q) cache).get k).score =
          match_score (py_lower q) key ((sorted_matches (py_lower q) cache).get k).path := by
      intro k
      have hmem : (sorted_matches (py_lower q) cache).get k ∈
          search_matches (py_lower q) cache :=
        (sorted_matches_perm (py_lower q) cache).mem_iff.mp
          (List.get_mem (sorted_matches (py_lower q) cache) k.1 k.2)
      rcases mem_search_matches.mp hmem with ⟨kp, -, -, he⟩
      exact ⟨kp.1, by rw [he]⟩
    rcases hscore i with ⟨ki, hki⟩
    rcases hscore j with ⟨kj, hkj⟩
    have hi100 : ((sorted_matches (py_lower q) cache).get i).score = 100 := by
      rw [hki, match_score_exact hiname]
    have hj90 : ((sorted_matches (py_lower q) cache).get j).score = 90 := by
      rw [hkj, match_score_starts hjne hjpre]
    exact sorted_matches_score_position (by omega)

/-- Witness for C4: the spec scenario `Projects` / `projects_old` with
query `projects`: the exact name match ranks strictly before the
starts-with match. -/
theorem claim_C4_witness :
    py_lower ((sorted_matches (py_lower "projects")
        [("projects", ⟨"/h/Projects", "Projects"⟩),
         ("projects_old", ⟨"/h/projects_old", "projects_old"⟩)]).get
      ⟨0, by decide⟩).path.name = py_lower "projects" ∧
    py_startswith (py_lower ((sorted_matches (py_lower "projects")
        [("projects", ⟨"/h/Projects", "Projects"⟩),
         ("projects_old", ⟨"/h/projects_old", "projects_old"⟩)]).get
      ⟨1, by decide⟩).path.name) (py_lower "projects") = true ∧
    py_lower ((sorted_matches (py_lower "projects")
        [("projects", ⟨"/h/Projects", "Projects"⟩),
         ("projects_old", ⟨"/h/projects_old", "projects_old"⟩)]).get
      ⟨1, by decide⟩).path.name ≠ py_lower "projects" ∧
    (⟨0, by decide⟩ : Fin (sorted_matches (py_lower "projects")
        [("projects", ⟨"/h/Projects", "Projects"⟩),
         ("projects_old", ⟨"/h/projects_old", "projects_old"⟩)]).length) <
      ⟨1, by decide⟩ :=
  ⟨by decide, by decide, by decide,
   (claim_C4 "projects"
       [("projects", ⟨"/h/Projects", "Projects"⟩),
        ("projects_old", ⟨"/h/projects_old", "projects_old"⟩)]).2.2
     ⟨0, by decide⟩ ⟨1, by decide⟩ (by decide) (by decide) (by decide)⟩

/-- Claim C5 (counterexample): the paths `ax` and `Bx` both match query
`x` at tier 80, yet the code returns `Bx` first: the tie-break compares
display paths by code point (`B` < `a`), not case-insensitively (the
case-insensitive order would put `ax` before `bx`), so the claimed
case-insensitive tie-break is false. -/
theorem claim_C5_counterexample :
    simple_search "x" [("ax", ⟨"ax", "ax"⟩), ("bx", ⟨"Bx", "Bx"⟩)] 10 =
      [("Bx", ⟨"Bx", "Bx"⟩), ("ax", ⟨"ax", "ax"⟩)] ∧
    match_score (py_lower "x") "ax" ⟨"ax", "ax"⟩ = 80 ∧
    match_score (py_lower "x") "bx" ⟨"Bx", "Bx"⟩ = 80 ∧
    py_str_lt (py_lower "ax") (py_lower "Bx") = true := by
  decide

/-- Claim C5 (amended): for every non-blank query the scored match list is
sorted by descending tier with ties broken by ascending **case-sensitive**
(code-point) lexicographic order of the full display path, it is a
permutation of the scored matches (nothing is lost before truncation), and
the result is that list truncated to `limit` and projected to
`(display, path)` pairs. -/
theorem claim_C5 (query : String) (cache : List (String × PyPath))
    (limit : Nat) (h : py_strip_empty query = false) :
    List.Sorted match_le (sorted_matches (py_lower query) cache) ∧
    (sorted_matches (py_lower query) cache).Perm (search_matches (py_lower query) cache) ∧
    simple_search query cache limit =
      ((sorted_matches (py_lower query) cache).take limit).map
        (fun m => (m.display, m.path)) := by
  refine ⟨sorted_matches_sorted _ _, sorted_matches_perm _ _, ?_⟩
  unfold simple_search
  rw [if_neg (by simp [h])]

/-- Witness for C5 (amended) at the query `x` over the two-entry cache of
the counterexample. -/
theorem claim_C5_witness :
    py_strip_empty "x" = false ∧
    (List.Sorted match_le (sorted_matches (py_lower "x")
        [("ax", ⟨"ax", "ax"⟩), ("bx", ⟨"Bx", "Bx"⟩)]) ∧
     (sorted_matches (py_lower "x") [("ax", ⟨"ax", "ax"⟩), ("bx", ⟨"Bx", "Bx"⟩)]).Perm
        (search_matches (py_lower "x") [("ax", ⟨"ax", "ax"⟩), ("bx", ⟨"Bx", "Bx"⟩)]) ∧
     simple_search "x" [("ax", ⟨"ax", "ax"⟩), ("bx", ⟨"Bx", "Bx"⟩)] 10 =
       ((sorted_matches (py_lower "x")
           [("ax", ⟨"ax", "ax"⟩), ("bx", ⟨"Bx", "Bx"⟩)]).take 10).map
         (fun m => (m.display, m.path))) :=
  ⟨by decide, claim_C5 "x" [("ax", ⟨"ax", "ax"⟩), ("bx", ⟨"Bx", "Bx"⟩)] 10 (by decide)⟩
